import Mathlib

/-!
Verification of the commit-enhancer CLI, a Node.js tool that generates
commit messages via a remote model and drives an accept / rewrite / cancel
loop around the final `git commit`.

The JavaScript sources are shallowly embedded.  Every external effect
(subprocess call, HTTP request, terminal prompt) is replaced by an oracle
value carried in a `World`, and each observable external call is recorded
in an event trace, so that statements such as "the decision prompt is never
invoked" or "the commit operation is only called with a non-empty message"
become statements about the trace.  JavaScript string falsiness (null,
undefined or the empty string) is modelled by `Option String` together
with explicit emptiness tests.  Console printing is not modelled, except
for the diagnostic reported on commit failure, which one claim is about.

The orchestrator follows the layered variant of the sources
(`runCommitWorkflow` calling the git / gemini / ui service modules); the
legacy monolithic `src/commit.js` has the identical suggestion loop.
-/

namespace CommitEnhancer

/-- Backtick character (code point 96), the markdown fence marker stripped
by the suggestion cleanup. -/
def backtick : Char := Char.ofNat 96

/-- Drop matching characters from both ends of a character list.  This
models a JavaScript global regex replace that deletes one maximal leading
run and one maximal trailing run of characters satisfying `p`. -/
def dropEdge (p : Char → Bool) (l : List Char) : List Char :=
  ((l.dropWhile p).reverse.dropWhile p).reverse

/-- Model of JavaScript `String.prototype.trim`: remove leading and
trailing whitespace. -/
def jsTrim (s : String) : String :=
  String.mk (dropEdge (fun c => c.isWhitespace) s.data)

/-- Model of the fence-stripping regex replace in `getCommitSuggestion`
(src/commit.js line 44): delete a leading and a trailing run of
backticks. -/
def stripFence (s : String) : String :=
  String.mk (dropEdge (fun c => c == backtick) s.data)

/-- The response cleanup in `getCommitSuggestion`:
`suggestion.trim()` followed by the fence-stripping replace. -/
def cleanSuggestion (s : String) : String := stripFence (jsTrim s)

/-- Model of JavaScript `String.prototype.includes`. -/
def jsIncludes (s sub : String) : Bool := decide (sub.data <:+: s.data)

/-- Model of JavaScript `String.prototype.startsWith`. -/
def jsStartsWith (s pre : String) : Bool := List.isPrefixOf pre.data s.data

/-- One `parts` element of the remote API response. -/
structure GPart where
  text : Option String
deriving DecidableEq

/-- The `content` object of a response candidate. -/
structure GContent where
  parts : List GPart
deriving DecidableEq

/-- One element of the response `candidates` list. -/
structure Candidate where
  content : Option GContent
deriving DecidableEq

/-- The JSON body of a successful HTTP response from the generation
endpoint; every level may be absent, as in the duck-typed source. -/
structure ApiResponse where
  candidates : Option (List Candidate)
deriving DecidableEq

/-- The chained optional access
`response.data.candidates?.[0]?.content?.parts?.[0]?.text`
(src/commit.js line 42): absent as soon as any level is missing. -/
def extractText (r : ApiResponse) : Option String :=
  match r.candidates with
  | none => none
  | some cs =>
    match cs.head? with
    | none => none
    | some c =>
      match c.content with
      | none => none
      | some ct =>
        match ct.parts.head? with
        | none => none
        | some p => p.text

/-- Model of `getCommitSuggestion` (src/commit.js lines 35-50).  The
argument is the outcome of the HTTP call: `none` models an axios throw
(transport or HTTP-status error), which the catch turns into null;
`some r` models a successful response, on which the chained optional
access falls back to the empty string (the `|| ""`) and the cleanup is
applied. -/
def getCommitSuggestion (res : Option ApiResponse) : Option String :=
  match res with
  | none => none
  | some r => some (cleanSuggestion ((extractText r).getD ""))

/-- The prompt template of src/commit.js line 79 (the services variant
`gemini.constructPrompt` builds the same string). -/
def constructPrompt (rawCommit diffContext : String) : String :=
  "You are an expert Git commit message writer. Generate a professional commit message in the Conventional Commits standard based on the user's intent and the staged file changes. The user's intent is: \"" ++
    rawCommit ++ "\".\n\n" ++ diffContext ++
    "\n\nReturn only the single-line, formatted commit message and nothing else."

/-- The folded Raw Intent built on a rewrite decision (src/commit.js
lines 127-129): the optional-hint clause is present exactly when the hint
is truthy, i.e. non-empty. -/
def rewriteIntent (currentSuggestion rewriteHint : String) : String :=
  "Rewrite the following commit message" ++
    (if rewriteHint = "" then "" else " to be " ++ rewriteHint) ++
    ": \"" ++ currentSuggestion ++ "\""

/-- Observable external calls of one run, recorded in order. -/
inductive Ev where
  | envRead
  | configRead
  | promptApiKey
  | saveKey
  | promptInit
  | promptIntent
  | genCall (prompt : String)
  | showSuggestion (s : String)
  | promptDecision
  | promptHint
  | commitCall (msg : String)
  | reportError (txt : String)
deriving DecidableEq

/-- Discriminator for generation-call events. -/
def isGenCall : Ev → Bool := fun e =>
  match e with
  | Ev.genCall _ => true
  | _ => false

/-- Discriminator for commit-invocation events. -/
def isCommitCall : Ev → Bool := fun e =>
  match e with
  | Ev.commitCall _ => true
  | _ => false

/-- JavaScript return values, needed to state what `performCommit`
actually returns to its caller. -/
inductive JSValue where
  | undef
  | bool (b : Bool)
  | str (s : String)
deriving DecidableEq

/-- Oracle inputs of `preflightChecks` (src/services/git.js lines 15-91):
whether `git --version` succeeds, whether `git rev-parse` says we are in a
work tree, the answer to the init-consent prompt, and the outcome of
`git status --porcelain` (`none` models a subprocess error). -/
structure PreflightInput where
  gitVersionOk : Bool
  inRepo : Bool
  initConsent : Bool
  statusResult : Option String
deriving DecidableEq

/-- The merge-conflict check block (src/services/git.js lines 77-88): on a
successful status call, fail exactly when the output contains "UU"; a
status subprocess error is swallowed and the check passes. -/
def conflictCheck (statusResult : Option String) : Bool :=
  match statusResult with
  | some out => !(jsIncludes out "UU")
  | none => true

/-- Model of `preflightChecks`.  The init sub-flow on consent only has
non-aborting branches (branch rename failures are non-fatal), so it is
abstracted to the consent answer; its subprocess calls are assumed not to
throw, which no claim depends on. -/
def preflightChecks (p : PreflightInput) : Bool × List Ev :=
  if p.gitVersionOk = false then (false, [])
  else if p.inRepo then (conflictCheck p.statusResult, [])
  else if p.initConsent then (conflictCheck p.statusResult, [Ev.promptInit])
  else (false, [Ev.promptInit])

/-- JavaScript truthiness of the environment variable read
`process.env.GEMINI_API_KEY`: set and non-empty. -/
def envTruthy (envKey : Option String) : Bool :=
  match envKey with
  | some v => v != ""
  | none => false

/-- Model of `getApiKey` (src/services/git.js lines 98-111).  `envKey` is
the environment variable (`none` = unset), `configResult` the outcome of
`git config gemini.apikey` (`none` = subprocess error, `some out` = its
stdout).  The environment read always happens; the config subprocess runs
only when the environment value is falsy, and its empty output is
collapsed to null by `stdout || null`. -/
def getApiKeyT (envKey configResult : Option String) : Option String × List Ev :=
  if envTruthy envKey then (envKey, [Ev.envRead])
  else
    ((match configResult with
      | some out => if out = "" then none else some out
      | none => none),
     [Ev.envRead, Ev.configRead])

/-- Step 2 of the orchestrator (the layered `runCommitWorkflow`):
non-interactive resolution via `getApiKey`, then on absence a prompt for
the key; an empty entry aborts, otherwise the key is optionally saved. -/
def credentialPhase (envKey configResult : Option String)
    (promptedKey : String) (shouldSave : Bool) : Option String × List Ev :=
  match getApiKeyT envKey configResult with
  | (some k, evs) => (some k, evs)
  | (none, evs) =>
    if promptedKey = "" then (none, evs ++ [Ev.promptApiKey])
    else
      (some promptedKey,
       evs ++ [Ev.promptApiKey] ++ (if shouldSave then [Ev.saveKey] else []))

/-- Step 4 of the orchestrator: use the command-line message if truthy,
else prompt for the initial intent. -/
def intentPhase (initialMessage promptedIntent : String) : String × List Ev :=
  if initialMessage = "" then (promptedIntent, [Ev.promptIntent])
  else (initialMessage, [])

/-- The three-way decision of the per-iteration prompt. -/
inductive Action where
  | commit
  | rewrite
  | cancel
deriving DecidableEq

/-- Oracle inputs of one loop iteration: the staged-diff summary, the raw
HTTP outcome of the generation call, the decision-prompt answer and the
rewrite-hint answer (the latter two are consulted only when the control
flow reaches them). -/
structure Iter where
  diff : String
  api : Option ApiResponse
  action : Action
  hint : String
deriving DecidableEq

/-- The suggestion computed in one iteration. -/
def suggOf (it : Iter) : Option String := getCommitSuggestion it.api

/-- How the suggestion loop ends: acceptance of a message, an early
return, or exhaustion of the oracle iteration list (the source loop is
unbounded; a run that commits or aborts does so after finitely many
iterations, which the list covers). -/
inductive LoopExit where
  | accepted (s : String)
  | aborted
  | fuel
deriving DecidableEq

/-- The `while (true)` suggestion loop (src/commit.js lines 77-131, and
identically the layered variant).  Each iteration: recompute the diff
summary, build the prompt, request a suggestion; a falsy suggestion
(null or empty) aborts the run; otherwise the suggestion is displayed,
auto-confirm mode exits the loop at once, and otherwise the three-way
decision is consulted. -/
def loop (autoConfirm : Bool) : String → List Iter → LoopExit × List Ev
  | _, [] => (LoopExit.fuel, [])
  | rawCommit, it :: rest =>
    let prompt := constructPrompt rawCommit it.diff
    match suggOf it with
    | none => (LoopExit.aborted, [Ev.genCall prompt])
    | some s =>
      if s = "" then (LoopExit.aborted, [Ev.genCall prompt])
      else if autoConfirm then
        (LoopExit.accepted s, [Ev.genCall prompt, Ev.showSuggestion s])
      else
        match it.action with
        | Action.commit =>
          (LoopExit.accepted s,
           [Ev.genCall prompt, Ev.showSuggestion s, Ev.promptDecision])
        | Action.cancel =>
          (LoopExit.aborted,
           [Ev.genCall prompt, Ev.showSuggestion s, Ev.promptDecision])
        | Action.rewrite =>
          let r := loop autoConfirm (rewriteIntent s it.hint) rest
          (r.1,
           [Ev.genCall prompt, Ev.showSuggestion s, Ev.promptDecision,
            Ev.promptHint] ++ r.2)

/-- The error object thrown by a failing `git commit` subprocess:
captured stderr (possibly absent or empty) and the error message. -/
structure CommitErr where
  stderr : Option String
  message : String
deriving DecidableEq

/-- The diagnostic printed on commit failure:
`error.stderr || error.message`. -/
def diagOf (e : CommitErr) : String :=
  match e.stderr with
  | some s => if s = "" then e.message else s
  | none => e.message

/-- Model of `performCommit` (src/services/git.js lines 171-184): invoke
`git commit -m` with the exact message; on failure report the underlying
diagnostic.  Both paths fall off the end of the function, so the
JavaScript return value is `undefined` on success and failure alike. -/
def performCommit (res : Option CommitErr) (msg : String) : JSValue × List Ev :=
  match res with
  | none => (JSValue.undef, [Ev.commitCall msg])
  | some e => (JSValue.undef, [Ev.commitCall msg, Ev.reportError (diagOf e)])

/-- All oracle inputs of one run. -/
structure World where
  pre : PreflightInput
  envKey : Option String
  configKey : Option String
  promptedKey : String
  shouldSave : Bool
  stagingOk : Bool
  promptedIntent : String
  iters : List Iter
  commitRes : Option CommitErr
deriving DecidableEq

/-- How a run ends: an early clean abort, a reached commit step with the
accepted message (performed whether or not the subprocess succeeds), or
oracle exhaustion. -/
inductive Outcome where
  | aborted
  | committed (msg : String)
  | fuel
deriving DecidableEq

/-- The layered `runCommitWorkflow` orchestrator: preflight checks,
credential resolution (with interactive fallback), staging check
(`handleStaging` abstracted to its boolean outcome), intent acquisition,
the suggestion loop, and the final commit. -/
def runCommitWorkflow (initialMessage : String) (autoConfirm : Bool)
    (w : World) : Outcome × List Ev :=
  let pf := preflightChecks w.pre
  if pf.1 = false then (Outcome.aborted, pf.2)
  else
    let cred := credentialPhase w.envKey w.configKey w.promptedKey w.shouldSave
    match cred.1 with
    | none => (Outcome.aborted, pf.2 ++ cred.2)
    | some _ =>
      if w.stagingOk = false then (Outcome.aborted, pf.2 ++ cred.2)
      else
        let intent := intentPhase initialMessage w.promptedIntent
        if intent.1 = "" then (Outcome.aborted, pf.2 ++ cred.2 ++ intent.2)
        else
          let lr := loop autoConfirm intent.1 w.iters
          match lr.1 with
          | LoopExit.aborted =>
            (Outcome.aborted, pf.2 ++ cred.2 ++ intent.2 ++ lr.2)
          | LoopExit.fuel =>
            (Outcome.fuel, pf.2 ++ cred.2 ++ intent.2 ++ lr.2)
          | LoopExit.accepted s =>
            let pc := performCommit w.commitRes s
            (Outcome.committed s, pf.2 ++ cred.2 ++ intent.2 ++ lr.2 ++ pc.2)

/-- CLI flag parsing (src/index.js line 19). -/
def autoConfirmOf (args : List String) : Bool :=
  args.contains "-y" || args.contains "/y"

/-- CLI positional-argument parsing (src/index.js line 22): space-join of
the arguments that do not start with a dash. -/
def initialIntentOf (args : List String) : String :=
  String.intercalate " " (args.filter (fun a => !(jsStartsWith a "-")))

/-- The `main` entry point: parse the arguments and run the workflow. -/
def mainRun (args : List String) (w : World) : Outcome × List Ev :=
  runCommitWorkflow (initialIntentOf args) (autoConfirmOf args) w

/-- Space-join as the spec words it ("space-joined"), written as a
recursive separator-join; refinement target for the CLI parsing claim. -/
def spaceJoinSpec : List String → String
  | [] => ""
  | [a] => a
  | a :: b :: rest => a ++ " " ++ spaceJoinSpec (b :: rest)

/-- Join of a list tail, each element preceded by the separator; helper
for relating `String.intercalate` to `spaceJoinSpec`. -/
def tailJoin (sep : String) : List String → String
  | [] => ""
  | a :: rest => sep ++ a ++ tailJoin sep rest

/-- A sample well-formed remote response. -/
def sampleResponse : ApiResponse :=
  { candidates :=
      some [{ content := some { parts := [{ text := some "feat: add login form" }] } }] }

/-- A sample loop iteration whose generation call succeeds and whose
decision is `commit`. -/
def sampleIter : Iter :=
  { diff := "No staged file changes detected."
    api := some sampleResponse
    action := Action.commit
    hint := "" }

/-- A sample iteration whose generation call fails in transport. -/
def sampleFailIter : Iter :=
  { diff := "No staged file changes detected."
    api := none
    action := Action.commit
    hint := "" }

/-- Preflight oracle of a healthy repository. -/
def samplePre : PreflightInput :=
  { gitVersionOk := true, inRepo := true, initConsent := false,
    statusResult := some "" }

/-- Preflight oracle whose status subprocess fails. -/
def sampleErrPre : PreflightInput :=
  { gitVersionOk := true, inRepo := true, initConsent := false,
    statusResult := none }

/-- A sample world in which every stage succeeds and the loop accepts the
first suggestion. -/
def sampleWorld : World :=
  { pre := samplePre
    envKey := some "k"
    configKey := none
    promptedKey := ""
    shouldSave := false
    stagingOk := true
    promptedIntent := ""
    iters := [sampleIter]
    commitRes := none }

/-- A sample world whose generation call fails. -/
def sampleGenFailWorld : World :=
  { sampleWorld with iters := [sampleFailIter] }

/-- A sample world whose final commit subprocess fails. -/
def sampleCommitFailWorld : World :=
  { sampleWorld with
      commitRes := some { stderr := some "pre-commit hook declined", message := "exit 1" } }

/-- A sample world whose status subprocess fails during preflight. -/
def sampleStatusErrWorld : World :=
  { sampleWorld with pre := sampleErrPre }

/-! Helper lemmas. -/

theorem dropWhile_eq_self_of_head (p : Char → Bool) (l : List Char)
    (h : ∀ c ∈ l.head?, p c = false) : l.dropWhile p = l := by
  cases l with
  | nil => rfl
  | cons a t =>
    rw [List.dropWhile_cons]
    simp [h a rfl]

theorem dropEdge_eq_self (p : Char → Bool) (l : List Char)
    (h1 : ∀ c ∈ l.head?, p c = false)
    (h2 : ∀ c ∈ l.getLast?, p c = false) : dropEdge p l = l := by
  unfold dropEdge
  rw [dropWhile_eq_self_of_head p l h1]
  rw [dropWhile_eq_self_of_head p l.reverse]
  · exact l.reverse_reverse
  · intro c hc
    rw [List.head?_reverse] at hc
    exact h2 c hc

/-- C6: the suggestion-response cleanup (trim surrounding whitespace, then
strip leading and trailing backtick runs) leaves any already-clean string
unchanged: if a string has no leading or trailing whitespace and no
leading or trailing backtick, the cleanup returns it as it is. -/
theorem cleanSuggestion_clean_fixed (s : String)
    (h1 : ∀ c ∈ s.data.head?, c.isWhitespace = false ∧ c ≠ backtick)
    (h2 : ∀ c ∈ s.data.getLast?, c.isWhitespace = false ∧ c ≠ backtick) :
    cleanSuggestion s = s := by
  have htrim : jsTrim s = s := by
    unfold jsTrim
    rw [dropEdge_eq_self _ _ (fun c hc => (h1 c hc).1) (fun c hc => (h2 c hc).1)]
  have hfence : stripFence s = s := by
    unfold stripFence
    rw [dropEdge_eq_self _ _ (fun c hc => by simp [(h1 c hc).2])
      (fun c hc => by simp [(h2 c hc).2])]
  unfold cleanSuggestion
  rw [htrim, hfence]

/-- Witness for `cleanSuggestion_clean_fixed` at a concrete clean string. -/
theorem cleanSuggestion_clean_fixed_witness :
    cleanSuggestion "feat: add login form" = "feat: add login form" :=
  cleanSuggestion_clean_fixed "feat: add login form" (by decide) (by decide)

/-- C3: on a rewrite decision the folded Raw Intent is exactly the
rewrite instruction around the prior suggestion, with the "to be" clause
present exactly when the hint is non-empty; in particular the hint
"more concise" yields text containing "to be more concise", and the
instruction part used with an empty hint contains no "to be". -/
theorem rewriteIntent_spec (s : String) :
    rewriteIntent s "" = "Rewrite the following commit message: \"" ++ s ++ "\"" ∧
    (∀ hint, hint ≠ "" → rewriteIntent s hint =
      "Rewrite the following commit message to be " ++ hint ++ ": \"" ++ s ++ "\"") ∧
    (∃ p q, rewriteIntent s "more concise" = p ++ "to be more concise" ++ q) ∧
    jsIncludes "Rewrite the following commit message: \"" "to be" = false := by
  refine ⟨rfl, ?_, ?_, by decide⟩
  · intro hint h
    unfold rewriteIntent
    rw [if_neg h]
    simp only [String.append_assoc]
    rfl
  · refine ⟨"Rewrite the following commit message ", ": \"" ++ s ++ "\"", ?_⟩
    unfold rewriteIntent
    rw [if_neg (by decide : ¬("more concise" = ""))]
    simp only [String.append_assoc]
    rfl

/-- Witness for `rewriteIntent_spec` at a concrete suggestion and hint. -/
theorem rewriteIntent_spec_witness :
    rewriteIntent "feat: add login form" "shorter" =
      "Rewrite the following commit message to be " ++ "shorter" ++ ": \"" ++
        "feat: add login form" ++ "\"" :=
  (rewriteIntent_spec "feat: add login form").2.1 "shorter" (by decide)

/-- C7: for every non-empty intent and every diff summary, the
constructed prompt contains the intent verbatim inside double quotes,
contains the diff summary verbatim, and ends with the single-line-output
instruction. -/
theorem constructPrompt_spec (intent diff : String) (h : intent ≠ "") :
    (∃ a b, constructPrompt intent diff = a ++ ("\"" ++ intent ++ "\"") ++ b) ∧
    (∃ a b, constructPrompt intent diff = a ++ diff ++ b) ∧
    (∃ a, constructPrompt intent diff =
      a ++ "Return only the single-line, formatted commit message and nothing else.") := by
  refine ⟨⟨"You are an expert Git commit message writer. Generate a professional commit message in the Conventional Commits standard based on the user's intent and the staged file changes. The user's intent is: ",
      ".\n\n" ++ diff ++ "\n\nReturn only the single-line, formatted commit message and nothing else.", ?_⟩,
    ⟨"You are an expert Git commit message writer. Generate a professional commit message in the Conventional Commits standard based on the user's intent and the staged file changes. The user's intent is: \"" ++
      intent ++ "\".\n\n", "\n\nReturn only the single-line, formatted commit message and nothing else.", rfl⟩,
    ⟨"You are an expert Git commit message writer. Generate a professional commit message in the Conventional Commits standard based on the user's intent and the staged file changes. The user's intent is: \"" ++
      intent ++ "\".\n\n" ++ diff ++ "\n\n", ?_⟩⟩
  · unfold constructPrompt
    simp only [String.append_assoc]
    rfl
  · unfold constructPrompt
    simp only [String.append_assoc]
    rfl

/-- Witness for `constructPrompt_spec` at a concrete intent and diff. -/
theorem constructPrompt_spec_witness :
    (∃ a b, constructPrompt "add login" "No staged file changes detected." =
      a ++ ("\"" ++ "add login" ++ "\"") ++ b) ∧
    (∃ a b, constructPrompt "add login" "No staged file changes detected." =
      a ++ "No staged file changes detected." ++ b) ∧
    (∃ a, constructPrompt "add login" "No staged file changes detected." =
      a ++ "Return only the single-line, formatted commit message and nothing else.") :=
  constructPrompt_spec "add login" "No staged file changes detected." (by decide)

theorem mem_pf_evs {p : PreflightInput} {x : Ev}
    (h : x ∈ (preflightChecks p).2) : x = Ev.promptInit := by
  unfold preflightChecks at h
  repeat' split at h
  all_goals simp_all

theorem getApiKeyT_evs (e c : Option String) :
    (getApiKeyT e c).2 = [Ev.envRead] ∨ (getApiKeyT e c).2 = [Ev.envRead, Ev.configRead] := by
  unfold getApiKeyT
  split
  · exact Or.inl rfl
  · exact Or.inr rfl

theorem credentialPhase_some {e c : Option String} {k : String} {evs : List Ev}
    (pk : String) (sv : Bool) (hg : getApiKeyT e c = (some k, evs)) :
    credentialPhase e c pk sv = (some k, evs) := by
  unfold credentialPhase
  rw [hg]

theorem credentialPhase_none_empty {e c : Option String} {evs : List Ev}
    (sv : Bool) (hg : getApiKeyT e c = (none, evs)) :
    credentialPhase e c "" sv = (none, evs ++ [Ev.promptApiKey]) := by
  unfold credentialPhase
  rw [hg]
  simp

theorem credentialPhase_none_prompted {e c : Option String} {evs : List Ev}
    {pk : String} (sv : Bool) (hg : getApiKeyT e c = (none, evs)) (hpk : ¬ pk = "") :
    credentialPhase e c pk sv =
      (some pk, evs ++ [Ev.promptApiKey] ++ (if sv then [Ev.saveKey] else [])) := by
  unfold credentialPhase
  rw [hg]
  simp [hpk]

theorem mem_cred_evs {e c : Option String} {pk : String} {sv : Bool} {x : Ev}
    (h : x ∈ (credentialPhase e c pk sv).2) :
    x = Ev.envRead ∨ x = Ev.configRead ∨ x = Ev.promptApiKey ∨ x = Ev.saveKey := by
  rcases hg : getApiKeyT e c with ⟨k, evs⟩
  have hevs := getApiKeyT_evs e c
  rw [hg] at hevs
  cases k with
  | some k0 =>
    rw [credentialPhase_some pk sv hg] at h
    rcases hevs with he | he <;> subst he <;> simp_all <;> tauto
  | none =>
    by_cases hpk : pk = ""
    · subst hpk
      rw [credentialPhase_none_empty sv hg] at h
      rcases hevs with he | he <;> subst he <;> simp_all <;> tauto
    · rw [credentialPhase_none_prompted sv hg hpk] at h
      rcases hevs with he | he <;> subst he <;> cases sv <;> simp_all <;> tauto

theorem envRead_mem_cred (e c : Option String) (pk : String) (sv : Bool) :
    Ev.envRead ∈ (credentialPhase e c pk sv).2 := by
  rcases hg : getApiKeyT e c with ⟨k, evs⟩
  have hevs := getApiKeyT_evs e c
  rw [hg] at hevs
  have hin : Ev.envRead ∈ evs := by
    rcases hevs with he | he <;> subst he <;> simp
  cases k with
  | some k0 => rw [credentialPhase_some pk sv hg]; exact hin
  | none =>
    by_cases hpk : pk = ""
    · subst hpk
      rw [credentialPhase_none_empty sv hg]
      simp [hin]
    · rw [credentialPhase_none_prompted sv hg hpk]
      simp [hin]

theorem mem_intent_evs {im pi : String} {x : Ev}
    (h : x ∈ (intentPhase im pi).2) : x = Ev.promptIntent := by
  unfold intentPhase at h
  split at h <;> simp_all

theorem mem_pc_evs {r : Option CommitErr} {m : String} {x : Ev}
    (h : x ∈ (performCommit r m).2) :
    x = Ev.commitCall m ∨ ∃ e, r = some e ∧ x = Ev.reportError (diagOf e) := by
  unfold performCommit at h
  split at h <;> simp_all


theorem loop_accepted_ne (ac : Bool) :
    ∀ (l : List Iter) (rc s : String),
      (loop ac rc l).1 = LoopExit.accepted s → s ≠ "" := by
  intro l
  induction l with
  | nil => intro rc s h; simp [loop] at h
  | cons it rest ih =>
    intro rc s h
    simp only [loop] at h
    split at h
    · simp at h
    · rename_i s0 hs0
      split at h
      · simp at h
      · rename_i hne
        split at h
        · simp at h
          subst h
          exact hne
        · split at h
          · simp at h
            subst h
            exact hne
          · simp at h
          · simp at h
            exact ih _ s h

theorem mem_loop_evs (ac : Bool) :
    ∀ (l : List Iter) (rc : String) (x : Ev), x ∈ (loop ac rc l).2 →
      (∃ pr, x = Ev.genCall pr) ∨ (∃ s0, x = Ev.showSuggestion s0) ∨
        x = Ev.promptDecision ∨ x = Ev.promptHint := by
  intro l
  induction l with
  | nil => intro rc x h; simp [loop] at h
  | cons it rest ih =>
    intro rc x h
    simp only [loop] at h
    split at h
    · simp at h; subst h; exact Or.inl ⟨_, rfl⟩
    · rename_i s0 hs0
      split at h
      · simp at h; subst h; exact Or.inl ⟨_, rfl⟩
      · split at h
        · simp at h
          rcases h with h | h
          · exact Or.inl ⟨_, h⟩
          · exact Or.inr (Or.inl ⟨_, h⟩)
        · split at h
          all_goals simp at h
          · rcases h with h | h | h
            · exact Or.inl ⟨_, h⟩
            · exact Or.inr (Or.inl ⟨_, h⟩)
            · exact Or.inr (Or.inr (Or.inl h))
          · rcases h with h | h | h
            · exact Or.inl ⟨_, h⟩
            · exact Or.inr (Or.inl ⟨_, h⟩)
            · exact Or.inr (Or.inr (Or.inl h))
          · rcases h with h | h | h | h | h
            · exact Or.inl ⟨_, h⟩
            · exact Or.inr (Or.inl ⟨_, h⟩)
            · exact Or.inr (Or.inr (Or.inl h))
            · exact Or.inr (Or.inr (Or.inr h))
            · exact ih _ x h

theorem loop_true_no_decision :
    ∀ (l : List Iter) (rc : String), Ev.promptDecision ∉ (loop true rc l).2 := by
  intro l rc h
  cases l with
  | nil => simp [loop] at h
  | cons it rest =>
    simp only [loop] at h
    split at h
    · simp at h
    · split at h <;> simp at h

theorem loop_true_accepts {it : Iter} {s : String} (rest : List Iter) (rc : String)
    (hs : suggOf it = some s) (hne : ¬ s = "") :
    loop true rc (it :: rest) =
      (LoopExit.accepted s,
       [Ev.genCall (constructPrompt rc it.diff), Ev.showSuggestion s]) := by
  simp [loop, hs, hne]

theorem loop_falsy {it : Iter} (ac : Bool) (rest : List Iter) (rc : String)
    (h : suggOf it = none ∨ suggOf it = some "") :
    loop ac rc (it :: rest) =
      (LoopExit.aborted, [Ev.genCall (constructPrompt rc it.diff)]) := by
  rcases h with h | h <;> simp [loop, h]


theorem commitCall_mem_pc (r : Option CommitErr) (m : String) :
    Ev.commitCall m ∈ (performCommit r m).2 := by
  unfold performCommit
  split <;> simp

theorem countP_gen_pf (p : PreflightInput) :
    List.countP isGenCall (preflightChecks p).2 = 0 :=
  List.countP_eq_zero.mpr (fun x hx => by rw [mem_pf_evs hx]; simp [isGenCall])

theorem countP_gen_cred (e c : Option String) (pk : String) (sv : Bool) :
    List.countP isGenCall (credentialPhase e c pk sv).2 = 0 :=
  List.countP_eq_zero.mpr (fun x hx => by
    rcases mem_cred_evs hx with h | h | h | h <;> rw [h] <;> simp [isGenCall])

theorem countP_gen_intent (im pi : String) :
    List.countP isGenCall (intentPhase im pi).2 = 0 :=
  List.countP_eq_zero.mpr (fun x hx => by rw [mem_intent_evs hx]; simp [isGenCall])

theorem countP_commit_pc (r : Option CommitErr) (m : String) :
    List.countP isCommitCall (performCommit r m).2 = 1 := by
  unfold performCommit
  cases r <;> simp [isCommitCall]

theorem no_commit_loop (ac : Bool) (l : List Iter) (rc m : String) :
    Ev.commitCall m ∉ (loop ac rc l).2 := by
  intro hx
  rcases mem_loop_evs ac l rc _ hx with ⟨pr, h⟩ | ⟨s0, h⟩ | h | h <;> simp at h

/-- C1: whenever the workflow invokes the commit operation, the message
passed to it is non-empty (absent or empty suggestions abort the loop
before the commit step is reached). -/
theorem commit_message_nonempty (im : String) (ac : Bool) (w : World) (m : String)
    (h : Ev.commitCall m ∈ (runCommitWorkflow im ac w).2) : m ≠ "" := by
  simp only [runCommitWorkflow] at h
  split at h
  · exact absurd (mem_pf_evs h) (by simp)
  · split at h
    · rw [List.mem_append] at h
      rcases h with h | h
      · exact absurd (mem_pf_evs h) (by simp)
      · exact absurd (mem_cred_evs h) (by simp)
    · split at h
      · rw [List.mem_append] at h
        rcases h with h | h
        · exact absurd (mem_pf_evs h) (by simp)
        · exact absurd (mem_cred_evs h) (by simp)
      · split at h
        · simp only [List.mem_append] at h
          rcases h with (h | h) | h
          · exact absurd (mem_pf_evs h) (by simp)
          · exact absurd (mem_cred_evs h) (by simp)
          · exact absurd (mem_intent_evs h) (by simp)
        · split at h
          · simp only [List.mem_append] at h
            rcases h with ((h | h) | h) | h
            · exact absurd (mem_pf_evs h) (by simp)
            · exact absurd (mem_cred_evs h) (by simp)
            · exact absurd (mem_intent_evs h) (by simp)
            · exact absurd h (no_commit_loop _ _ _ _)
          · simp only [List.mem_append] at h
            rcases h with ((h | h) | h) | h
            · exact absurd (mem_pf_evs h) (by simp)
            · exact absurd (mem_cred_evs h) (by simp)
            · exact absurd (mem_intent_evs h) (by simp)
            · exact absurd h (no_commit_loop _ _ _ _)
          · rename_i s hls
            simp only [List.mem_append] at h
            rcases h with (((h | h) | h) | h) | h
            · exact absurd (mem_pf_evs h) (by simp)
            · exact absurd (mem_cred_evs h) (by simp)
            · exact absurd (mem_intent_evs h) (by simp)
            · exact absurd h (no_commit_loop _ _ _ _)
            · rcases mem_pc_evs h with hcm | ⟨e, _, hcm⟩
              · cases hcm
                exact loop_accepted_ne ac w.iters _ m hls
              · simp at hcm


/-- Witness for `commit_message_nonempty`: a concrete run whose trace
contains a commit invocation. -/
theorem commit_message_nonempty_witness : "feat: add login form" ≠ "" :=
  commit_message_nonempty "add login" false sampleWorld "feat: add login form"
    (by decide)

/-- C2: in auto-confirm mode, when the first generation call returns a
non-empty suggestion, the run commits that suggestion and the three-way
decision prompt is never invoked. -/
theorem autoConfirm_skips_decision (im : String) (w : World) (it : Iter)
    (rest : List Iter) (s : String)
    (hpf : (preflightChecks w.pre).1 = true)
    (hk : ∃ k, (credentialPhase w.envKey w.configKey w.promptedKey w.shouldSave).1 = some k)
    (hst : w.stagingOk = true)
    (hintent : ¬ (intentPhase im w.promptedIntent).1 = "")
    (hit : w.iters = it :: rest)
    (hs : suggOf it = some s) (hne : s ≠ "") :
    (runCommitWorkflow im true w).1 = Outcome.committed s ∧
    Ev.commitCall s ∈ (runCommitWorkflow im true w).2 ∧
    Ev.promptDecision ∉ (runCommitWorkflow im true w).2 := by
  obtain ⟨k, hk⟩ := hk
  have hloop := loop_true_accepts rest (intentPhase im w.promptedIntent).1 hs hne
  have hrun : runCommitWorkflow im true w =
      (Outcome.committed s,
       (preflightChecks w.pre).2 ++
         (credentialPhase w.envKey w.configKey w.promptedKey w.shouldSave).2 ++
         (intentPhase im w.promptedIntent).2 ++
         [Ev.genCall (constructPrompt (intentPhase im w.promptedIntent).1 it.diff),
          Ev.showSuggestion s] ++
         (performCommit w.commitRes s).2) := by
    simp only [runCommitWorkflow, hpf, hk, hst, hit, hloop, hintent]
    simp
  rw [hrun]
  refine ⟨rfl, ?_, ?_⟩
  · simp only [List.mem_append]
    exact Or.inr (commitCall_mem_pc w.commitRes s)
  · intro hmem
    simp only [List.mem_append] at hmem
    rcases hmem with (((hmem | hmem) | hmem) | hmem) | hmem
    · exact absurd (mem_pf_evs hmem) (by simp)
    · exact absurd (mem_cred_evs hmem) (by simp)
    · exact absurd (mem_intent_evs hmem) (by simp)
    · simp at hmem
    · rcases mem_pc_evs hmem with hcm | ⟨e, _, hcm⟩ <;> simp at hcm

/-- Witness for `autoConfirm_skips_decision` at a concrete run. -/
theorem autoConfirm_skips_decision_witness :
    (runCommitWorkflow "add login" true sampleWorld).1 =
      Outcome.committed "feat: add login form" ∧
    Ev.commitCall "feat: add login form" ∈
      (runCommitWorkflow "add login" true sampleWorld).2 ∧
    Ev.promptDecision ∉ (runCommitWorkflow "add login" true sampleWorld).2 :=
  autoConfirm_skips_decision "add login" sampleWorld sampleIter [] "feat: add login form"
    (by decide) ⟨"k", by decide⟩ rfl (by decide) rfl (by decide) (by decide)


/-- C4: credential resolution precedence.  A set, non-empty environment
variable is returned at once, with no config subprocess run; when the
variable is unset, a present (non-empty) repository-local configuration
value is returned; absence of both yields null; and the resolver never
prompts. -/
theorem getApiKey_precedence :
    (∀ v c, v ≠ "" → getApiKeyT (some v) c = (some v, [Ev.envRead])) ∧
    (∀ s, s ≠ "" → getApiKeyT none (some s) = (some s, [Ev.envRead, Ev.configRead])) ∧
    getApiKeyT none none = (none, [Ev.envRead, Ev.configRead]) ∧
    (∀ e c, Ev.promptApiKey ∉ (getApiKeyT e c).2) := by
  refine ⟨?_, ?_, rfl, ?_⟩
  · intro v c hv
    unfold getApiKeyT envTruthy
    simp [hv]
  · intro s hs
    unfold getApiKeyT envTruthy
    simp [hs]
  · intro e c hmem
    rcases getApiKeyT_evs e c with hg | hg <;> rw [hg] at hmem <;> simp at hmem

/-- Witness for `getApiKey_precedence` at concrete credential states. -/
theorem getApiKey_precedence_witness :
    getApiKeyT (some "envkey") (some "cfgkey") = (some "envkey", [Ev.envRead]) ∧
    getApiKeyT none (some "cfgkey") = (some "cfgkey", [Ev.envRead, Ev.configRead]) :=
  ⟨getApiKey_precedence.1 "envkey" (some "cfgkey") (by decide),
   getApiKey_precedence.2.1 "cfgkey" (by decide)⟩

/-- C5 counterexample: a parse failure (well-formed transport, response
lacking the candidates shape) does not make `getCommitSuggestion` return
the absent value; it returns the empty string instead. -/
theorem getCommitSuggestion_parse_failure_not_absent :
    getCommitSuggestion (some { candidates := none }) = some "" ∧
    getCommitSuggestion (some { candidates := none }) ≠ none := by
  refine ⟨rfl, ?_⟩
  simp [getCommitSuggestion]

/-- C5 amended: a transport failure yields the absent value and a
shape-mismatched response yields the empty string; in both cases the
orchestrator aborts the run with no commit performed and exactly one
generation call (no retry). -/
theorem remote_failure_aborts (im : String) (ac : Bool) (w : World) (it : Iter)
    (rest : List Iter)
    (hpf : (preflightChecks w.pre).1 = true)
    (hk : ∃ k, (credentialPhase w.envKey w.configKey w.promptedKey w.shouldSave).1 = some k)
    (hst : w.stagingOk = true)
    (hintent : ¬ (intentPhase im w.promptedIntent).1 = "")
    (hit : w.iters = it :: rest)
    (hfal : suggOf it = none ∨ suggOf it = some "") :
    getCommitSuggestion none = none ∧
    (∀ r, extractText r = none → getCommitSuggestion (some r) = some "") ∧
    (runCommitWorkflow im ac w).1 = Outcome.aborted ∧
    (∀ m, Ev.commitCall m ∉ (runCommitWorkflow im ac w).2) ∧
    List.countP isGenCall (runCommitWorkflow im ac w).2 = 1 := by
  obtain ⟨k, hk⟩ := hk
  have hloop := loop_falsy ac rest (intentPhase im w.promptedIntent).1 hfal
  have hrun : runCommitWorkflow im ac w =
      (Outcome.aborted,
       (preflightChecks w.pre).2 ++
         (credentialPhase w.envKey w.configKey w.promptedKey w.shouldSave).2 ++
         (intentPhase im w.promptedIntent).2 ++
         [Ev.genCall (constructPrompt (intentPhase im w.promptedIntent).1 it.diff)]) := by
    simp only [runCommitWorkflow, hpf, hk, hst, hit, hloop, hintent]
    simp
  refine ⟨rfl, ?_, ?_, ?_, ?_⟩
  · intro r hr
    simp [getCommitSuggestion, hr]
    rfl
  · rw [hrun]
  · intro m hmem
    rw [hrun] at hmem
    simp only [List.mem_append] at hmem
    rcases hmem with ((hmem | hmem) | hmem) | hmem
    · exact absurd (mem_pf_evs hmem) (by simp)
    · exact absurd (mem_cred_evs hmem) (by simp)
    · exact absurd (mem_intent_evs hmem) (by simp)
    · simp at hmem
  · rw [hrun]
    simp only [List.countP_append, countP_gen_pf, countP_gen_cred, countP_gen_intent]
    simp [isGenCall]

/-- Witness for `remote_failure_aborts` at a concrete failing run. -/
theorem remote_failure_aborts_witness :
    (runCommitWorkflow "add login" false sampleGenFailWorld).1 = Outcome.aborted ∧
    List.countP isGenCall (runCommitWorkflow "add login" false sampleGenFailWorld).2 = 1 := by
  have h := remote_failure_aborts "add login" false sampleGenFailWorld sampleFailIter []
    (by decide) ⟨"k", by decide⟩ rfl (by decide) rfl (Or.inl rfl)
  exact ⟨h.2.2.1, h.2.2.2.2⟩


theorem countP_commit_pf (p : PreflightInput) :
    List.countP isCommitCall (preflightChecks p).2 = 0 :=
  List.countP_eq_zero.mpr (fun x hx => by rw [mem_pf_evs hx]; simp [isCommitCall])

theorem countP_commit_cred (e c : Option String) (pk : String) (sv : Bool) :
    List.countP isCommitCall (credentialPhase e c pk sv).2 = 0 :=
  List.countP_eq_zero.mpr (fun x hx => by
    rcases mem_cred_evs hx with h | h | h | h <;> rw [h] <;> simp [isCommitCall])

theorem countP_commit_intent (im pi : String) :
    List.countP isCommitCall (intentPhase im pi).2 = 0 :=
  List.countP_eq_zero.mpr (fun x hx => by rw [mem_intent_evs hx]; simp [isCommitCall])

theorem countP_commit_loop (ac : Bool) (l : List Iter) (rc : String) :
    List.countP isCommitCall (loop ac rc l).2 = 0 :=
  List.countP_eq_zero.mpr (fun x hx => by
    rcases mem_loop_evs ac l rc x hx with ⟨pr, h⟩ | ⟨s0, h⟩ | h | h <;>
      rw [h] <;> simp [isCommitCall])

theorem run_committed_inv (im : String) (ac : Bool) (w : World) (s : String)
    (h : (runCommitWorkflow im ac w).1 = Outcome.committed s) :
    (loop ac (intentPhase im w.promptedIntent).1 w.iters).1 = LoopExit.accepted s ∧
    runCommitWorkflow im ac w =
      (Outcome.committed s,
       (preflightChecks w.pre).2 ++
         (credentialPhase w.envKey w.configKey w.promptedKey w.shouldSave).2 ++
         (intentPhase im w.promptedIntent).2 ++
         (loop ac (intentPhase im w.promptedIntent).1 w.iters).2 ++
         (performCommit w.commitRes s).2) := by
  by_cases hpf : (preflightChecks w.pre).1 = false
  · have hr : runCommitWorkflow im ac w = (Outcome.aborted, (preflightChecks w.pre).2) := by
      simp only [runCommitWorkflow, hpf]
      simp
    rw [hr] at h
    simp at h
  · have hpf1 : (preflightChecks w.pre).1 = true := by simpa using hpf
    rcases hcred : (credentialPhase w.envKey w.configKey w.promptedKey w.shouldSave).1 with _ | k
    · have hr : runCommitWorkflow im ac w =
          (Outcome.aborted,
           (preflightChecks w.pre).2 ++
             (credentialPhase w.envKey w.configKey w.promptedKey w.shouldSave).2) := by
        simp only [runCommitWorkflow, hpf1, hcred]
        simp
      rw [hr] at h
      simp at h
    · by_cases hst : w.stagingOk = false
      · have hr : runCommitWorkflow im ac w =
            (Outcome.aborted,
             (preflightChecks w.pre).2 ++
               (credentialPhase w.envKey w.configKey w.promptedKey w.shouldSave).2) := by
          simp only [runCommitWorkflow, hpf1, hcred, hst]
          simp
        rw [hr] at h
        simp at h
      · have hst1 : w.stagingOk = true := by simpa using hst
        by_cases hint : (intentPhase im w.promptedIntent).1 = ""
        · have hr : runCommitWorkflow im ac w =
              (Outcome.aborted,
               (preflightChecks w.pre).2 ++
                 (credentialPhase w.envKey w.configKey w.promptedKey w.shouldSave).2 ++
                 (intentPhase im w.promptedIntent).2) := by
            simp only [runCommitWorkflow, hpf1, hcred, hst1, hint]
            simp
          rw [hr] at h
          simp at h
        · rcases hl : (loop ac (intentPhase im w.promptedIntent).1 w.iters).1 with s1 | _ | _
          · have hr : runCommitWorkflow im ac w =
                (Outcome.committed s1,
                 (preflightChecks w.pre).2 ++
                   (credentialPhase w.envKey w.configKey w.promptedKey w.shouldSave).2 ++
                   (intentPhase im w.promptedIntent).2 ++
                   (loop ac (intentPhase im w.promptedIntent).1 w.iters).2 ++
                   (performCommit w.commitRes s1).2) := by
              simp only [runCommitWorkflow, hpf1, hcred, hst1, hint, hl]
              simp
            rw [hr] at h
            simp only [Outcome.committed.injEq] at h
            subst h
            exact ⟨rfl, hr⟩
          · have hr : runCommitWorkflow im ac w =
                (Outcome.aborted,
                 (preflightChecks w.pre).2 ++
                   (credentialPhase w.envKey w.configKey w.promptedKey w.shouldSave).2 ++
                   (intentPhase im w.promptedIntent).2 ++
                   (loop ac (intentPhase im w.promptedIntent).1 w.iters).2) := by
              simp only [runCommitWorkflow, hpf1, hcred, hst1, hint, hl]
              simp
            rw [hr] at h
            simp at h
          · have hr : runCommitWorkflow im ac w =
                (Outcome.fuel,
                 (preflightChecks w.pre).2 ++
                   (credentialPhase w.envKey w.configKey w.promptedKey w.shouldSave).2 ++
                   (intentPhase im w.promptedIntent).2 ++
                   (loop ac (intentPhase im w.promptedIntent).1 w.iters).2) := by
              simp only [runCommitWorkflow, hpf1, hcred, hst1, hint, hl]
              simp
            rw [hr] at h
            simp at h

/-- C8 counterexample: on a failing commit subprocess, `performCommit`
returns undefined to its caller, not a boolean failure result. -/
theorem performCommit_no_boolean_counterexample :
    (performCommit (some { stderr := some "pre-commit hook declined", message := "exit 1" })
        "feat: x").1 = JSValue.undef ∧
    JSValue.undef ≠ JSValue.bool false ∧ JSValue.undef ≠ JSValue.bool true := by
  refine ⟨rfl, by decide, by decide⟩

/-- C8 amended: when the final commit invocation fails, `performCommit`
reports the underlying diagnostic text and returns undefined (the caller
ignores any result); the commit is invoked exactly once (not retried),
and the workflow ends in its terminal state with nothing after the commit
step, whether the commit succeeds or fails. -/
theorem commit_failure_reported_terminal :
    (∀ e m, performCommit (some e) m =
      (JSValue.undef, [Ev.commitCall m, Ev.reportError (diagOf e)])) ∧
    (∀ im ac w s, (runCommitWorkflow im ac w).1 = Outcome.committed s →
      List.countP isCommitCall (runCommitWorkflow im ac w).2 = 1 ∧
      ∃ pre, (runCommitWorkflow im ac w).2 = pre ++ (performCommit w.commitRes s).2) := by
  constructor
  · intro e m
    rfl
  · intro im ac w s h
    obtain ⟨hl, hr⟩ := run_committed_inv im ac w s h
    rw [hr]
    constructor
    · simp only [List.countP_append, countP_commit_pf, countP_commit_cred,
        countP_commit_intent, countP_commit_loop, countP_commit_pc]
    · exact ⟨_, rfl⟩

/-- Witness for `commit_failure_reported_terminal` at a concrete failing
commit. -/
theorem commit_failure_reported_terminal_witness :
    performCommit (some { stderr := some "pre-commit hook declined", message := "exit 1" })
        "feat: add login form" =
      (JSValue.undef,
       [Ev.commitCall "feat: add login form",
        Ev.reportError
          (diagOf { stderr := some "pre-commit hook declined", message := "exit 1" })]) ∧
    List.countP isCommitCall
      (runCommitWorkflow "add login" false sampleCommitFailWorld).2 = 1 :=
  ⟨commit_failure_reported_terminal.1 _ _,
   (commit_failure_reported_terminal.2 "add login" false sampleCommitFailWorld
      "feat: add login form" (by decide)).1⟩

theorem conflictCheck_false_iff (sr : Option String) :
    conflictCheck sr = false ↔ ∃ out, sr = some out ∧ jsIncludes out "UU" = true := by
  cases sr <;> simp [conflictCheck]

/-- C10: a failing status subprocess is silently swallowed by
`preflightChecks`, which then still returns true, so the workflow
proceeds to credential resolution with no merge-conflict check performed;
given a healthy git and repository, only a successful status output
containing the "UU" marker makes `preflightChecks` return false. -/
theorem preflight_status_error_swallowed (p : PreflightInput)
    (hgit : p.gitVersionOk = true)
    (hrepo : p.inRepo = true ∨ p.initConsent = true) :
    (p.statusResult = none → (preflightChecks p).1 = true) ∧
    ((preflightChecks p).1 = false ↔
      ∃ out, p.statusResult = some out ∧ jsIncludes out "UU" = true) ∧
    (∀ im ac w, w.pre = p → p.statusResult = none →
      Ev.envRead ∈ (runCommitWorkflow im ac w).2) := by
  have hpick : (preflightChecks p).1 = conflictCheck p.statusResult := by
    unfold preflightChecks
    rcases hrepo with hr | hr
    · simp [hgit, hr]
    · cases hir : p.inRepo <;> simp [hgit, hr, hir]
  refine ⟨?_, ?_, ?_⟩
  · intro hn
    rw [hpick, hn]
    rfl
  · rw [hpick]
    exact conflictCheck_false_iff p.statusResult
  · intro im ac w hw hn
    subst hw
    have hpf1 : (preflightChecks w.pre).1 = true := by
      rw [hpick, hn]
      rfl
    have henv := envRead_mem_cred w.envKey w.configKey w.promptedKey w.shouldSave
    simp only [runCommitWorkflow, hpf1]
    simp only [Bool.true_eq_false, if_false]
    repeat' split
    all_goals simp only [List.mem_append]
    all_goals tauto

/-- Witness for `preflight_status_error_swallowed` at a concrete world
whose status subprocess fails. -/
theorem preflight_status_error_swallowed_witness :
    (preflightChecks sampleErrPre).1 = true ∧
    Ev.envRead ∈ (runCommitWorkflow "add login" false sampleStatusErrWorld).2 := by
  have h := preflight_status_error_swallowed sampleErrPre rfl (Or.inl rfl)
  exact ⟨h.1 rfl, h.2.2 "add login" false sampleStatusErrWorld rfl rfl⟩


theorem intercalate_go_eq (sep : String) :
    ∀ (as : List String) (acc : String),
      String.intercalate.go acc sep as = acc ++ tailJoin sep as := by
  intro as
  induction as with
  | nil =>
    intro acc
    show acc = acc ++ tailJoin sep []
    rw [tailJoin, String.append_empty]
  | cons a rest ih =>
    intro acc
    show String.intercalate.go (acc ++ sep ++ a) sep rest = _
    rw [ih, tailJoin]
    simp [String.append_assoc]

theorem append_tailJoin : ∀ (rest : List String) (a : String),
    a ++ tailJoin " " rest = spaceJoinSpec (a :: rest) := by
  intro rest
  induction rest with
  | nil =>
    intro a
    rw [tailJoin, spaceJoinSpec, String.append_empty]
  | cons b bs ih =>
    intro a
    rw [tailJoin, spaceJoinSpec]
    rw [← ih b]
    simp [String.append_assoc]

theorem intercalate_eq_spaceJoin (l : List String) :
    String.intercalate " " l = spaceJoinSpec l := by
  cases l with
  | nil => rfl
  | cons a rest =>
    show String.intercalate.go a " " rest = _
    rw [intercalate_go_eq, append_tailJoin]

theorem mem_spaceJoin : ∀ (l : List String) (a : String), a ∈ l →
    ∃ p q, spaceJoinSpec l = p ++ a ++ q := by
  intro l
  induction l with
  | nil => intro a h; simp at h
  | cons x xs ih =>
    intro a h
    rcases List.mem_cons.mp h with rfl | hmem
    · cases xs with
      | nil =>
        exact ⟨"", "", by
          rw [spaceJoinSpec]
          simp [String.append_empty, String.empty_append]⟩
      | cons y ys =>
        refine ⟨"", " " ++ spaceJoinSpec (y :: ys), ?_⟩
        rw [spaceJoinSpec]
        simp [String.append_assoc, String.empty_append]
    · have hxs : ∃ y ys, xs = y :: ys := by
        cases xs with
        | nil => simp at hmem
        | cons y ys => exact ⟨y, ys, rfl⟩
      obtain ⟨y, ys, rfl⟩ := hxs
      obtain ⟨p, q, hpq⟩ := ih a hmem
      refine ⟨x ++ " " ++ p, q, ?_⟩
      rw [spaceJoinSpec, hpq]
      simp [String.append_assoc]

/-- C9: auto-confirm mode is enabled exactly when the argument list
contains "-y" or "/y"; the initial Raw Intent is the space-join of the
arguments that do not start with a dash; hence a "/y" argument both
enables auto-confirm and appears verbatim in the initial intent. -/
theorem cli_parsing_spec (args : List String) :
    (autoConfirmOf args = true ↔ "-y" ∈ args ∨ "/y" ∈ args) ∧
    initialIntentOf args = spaceJoinSpec (args.filter (fun a => !(jsStartsWith a "-"))) ∧
    ("/y" ∈ args → autoConfirmOf args = true ∧
      ∃ p q, initialIntentOf args = p ++ "/y" ++ q) := by
  have hjoin : initialIntentOf args =
      spaceJoinSpec (args.filter (fun a => !(jsStartsWith a "-"))) := by
    unfold initialIntentOf
    exact intercalate_eq_spaceJoin _
  refine ⟨?_, hjoin, ?_⟩
  · unfold autoConfirmOf
    simp [List.contains, List.elem_iff]
  · intro hmem
    constructor
    · unfold autoConfirmOf
      simp only [List.contains, Bool.or_eq_true, List.elem_iff]
      exact Or.inr hmem
    · rw [hjoin]
      exact mem_spaceJoin _ "/y" (List.mem_filter.mpr ⟨hmem, by decide⟩)

/-- Witness for `cli_parsing_spec` at a concrete argument list containing
a "/y" flag. -/
theorem cli_parsing_spec_witness :
    autoConfirmOf ["/y", "fix bug"] = true ∧
    ∃ p q, initialIntentOf ["/y", "fix bug"] = p ++ "/y" ++ q :=
  (cli_parsing_spec ["/y", "fix bug"]).2.2 (by decide)


end CommitEnhancer
